import Mathlib

/-!
Register-level model of AnalogInput.h.

A shallow embedding of `template <uint8_t chan> class AnalogInput` (src/AnalogInput.h).

* The special-function registers are fields of `Machine`; every CPU access to one of
  them is appended to `Machine.trace`, oldest first.
* 8-bit registers hold naturals; a store keeps the low byte (`% 256`).
* The bit numbers `ADEN`, `ADSC`, `REFS0`, `MUX5` come from `<avr/io.h>`, which is not part
  of the repository: they are the fields of `Platform`.  `MUX5 = none` is a part on which
  the macro is not defined.
* The converter itself is hardware.  A `Conversion` says how many polls of `ADSC` still
  read "busy" and which code is latched into `ADC` when the conversion completes.
* `float` members are rationals: rounding is not modelled.
-/

/-- Special-function registers used by the library. -/
inductive Reg where
  | ADCSRA
  | ADCSRB
  | ADMUX
  | DIDR0
  | DIDR2
  | ADC
  deriving DecidableEq, Repr

/-- One CPU access to a register, with the value read or written. -/
inductive Access where
  | load (r : Reg) (v : Nat)
  | store (r : Reg) (v : Nat)
  deriving DecidableEq, Repr

/-- Bit numbers supplied by `<avr/io.h>` for the part being compiled for. -/
structure Platform where
  ADEN : Nat
  ADSC : Nat
  REFS0 : Nat
  MUX5 : Option Nat
  deriving DecidableEq, Repr

/-- Register file plus the record of accesses made so far (oldest first). -/
structure Machine where
  ADCSRA : Nat
  ADCSRB : Nat
  ADMUX : Nat
  DIDR0 : Nat
  DIDR2 : Nat
  ADC : Nat
  trace : List Access
  deriving DecidableEq, Repr

/-- One hardware conversion: `latency` polls of `ADSC` see it still set, then the
converter clears `ADSC` and latches `result` into `ADC`. -/
structure Conversion where
  latency : Nat
  result : Nat
  deriving DecidableEq, Repr

/-- The object state of `AnalogInput<chan>`: the template argument and the three
`const` members `mult`, `offs`, `div`. -/
structure AnalogInput where
  chan : Nat
  mult : ℚ
  offs : ℚ
  div : Nat
  deriving DecidableEq

namespace Machine

/-- Current content of a register. -/
def get (m : Machine) : Reg → Nat
  | .ADCSRA => m.ADCSRA
  | .ADCSRB => m.ADCSRB
  | .ADMUX => m.ADMUX
  | .DIDR0 => m.DIDR0
  | .DIDR2 => m.DIDR2
  | .ADC => m.ADC

/-- Overwrite a register (no trace entry). -/
def set (m : Machine) (r : Reg) (v : Nat) : Machine :=
  match r with
  | .ADCSRA => { m with ADCSRA := v }
  | .ADCSRB => { m with ADCSRB := v }
  | .ADMUX => { m with ADMUX := v }
  | .DIDR0 => { m with DIDR0 := v }
  | .DIDR2 => { m with DIDR2 := v }
  | .ADC => { m with ADC := v }

/-- Volatile read of a register: the value, and the machine with the read recorded. -/
def load (m : Machine) (r : Reg) : Nat × Machine :=
  (m.get r, { m with trace := m.trace ++ [Access.load r (m.get r)] })

/-- Volatile write of an 8-bit register: the low byte of `v` is stored and recorded. -/
def store (m : Machine) (r : Reg) (v : Nat) : Machine :=
  let m1 := m.set r (v % 256)
  { m1 with trace := m1.trace ++ [Access.store r (v % 256)] }

/-- The statement `R |= mask;` on an 8-bit register: read, or, write back. -/
def orAssign (m : Machine) (r : Reg) (mask : Nat) : Machine :=
  let (v, m1) := m.load r
  m1.store r (v ||| mask)

/-- The statement `R &= ~(bits);` on an 8-bit register: read, clear `bits`, write back.
Only the low byte of `~bits` reaches the register, which is `0xFF ^ bits`. -/
def andNotAssign (m : Machine) (r : Reg) (bits : Nat) : Machine :=
  let (v, m1) := m.load r
  m1.store r (v &&& (0xFF ^^^ bits))

/-- Number of stores to register `r` recorded in the trace. -/
def storesTo (m : Machine) (r : Reg) : Nat :=
  m.trace.countP fun a =>
    match a with
    | Access.store r1 _ => decide (r1 = r)
    | Access.load _ _ => false

/-- The registers alone, without the access record. -/
def regs (m : Machine) : Nat × Nat × Nat × Nat × Nat × Nat :=
  (m.ADCSRA, m.ADCSRB, m.ADMUX, m.DIDR0, m.DIDR2, m.ADC)

end Machine

namespace AnalogInput

/-- The avr-libc macro `_BV(bit)`, that is `(1 << (bit))`. -/
def _BV (bit : Nat) : Nat := 1 <<< bit

/-- Value the preprocessor gives `chan` inside `#if (chan < 8)`.  `chan` is a template
parameter, not a macro, and in a `#if` expression every identifier left after macro
expansion is replaced by `0`. -/
def ppChan : Nat := 0

/-- Constructor of the nested class `_init` (lines 74-78): the member `_initializer` is a
non-static data member, so this body runs in every construction of an `AnalogInput`. -/
def _init (p : Platform) (m : Machine) : Machine :=
  let m1 := m.orAssign Reg.ADCSRA (_BV p.ADEN ||| 0x07)
  m1.orAssign Reg.ADMUX (_BV p.REFS0)

/-- The private method `setup()` (lines 176-184).  The branch is chosen by the preprocessor
directive `#if (chan < 8)`, so by `ppChan`, while `_BV(chan&0x07)` uses the template
argument. -/
def setup (chan : Nat) (m : Machine) : Machine :=
  if ppChan < 8 then m.orAssign Reg.DIDR0 (_BV (chan &&& 0x07))
  else m.orAssign Reg.DIDR2 (_BV (chan &&& 0x07))

/-- Register effect shared by the three constructors: the member `_initializer` is
initialised first (it is declared first), then the constructor body calls `setup()`. -/
def construct (p : Platform) (chan : Nat) (m : Machine) : Machine :=
  setup chan (_init p m)

/-- The default constructor `AnalogInput ()` (line 93). -/
def ctor (p : Platform) (chan : Nat) (m : Machine) : AnalogInput × Machine :=
  ({ chan := chan, mult := 100 / 1023, offs := 0, div := 1023 / 15 }, construct p chan m)

/-- The member initialiser `div(1023 / (sectors-1))` (line 105): `sectors` is promoted to
`int`, the quotient truncates toward zero, and the result is converted to `uint16_t`.
`none` is the division by zero. -/
def sectorDiv (sectors : Nat) : Option Nat :=
  if (sectors : Int) - 1 = 0 then none
  else some (Int.toNat (Int.emod (Int.tdiv 1023 ((sectors : Int) - 1)) 65536))

/-- The constructor `AnalogInput (uint8_t sectors)` (line 105). -/
def ctorSectors (p : Platform) (chan : Nat) (sectors : Nat) (m : Machine) :
    Option (AnalogInput × Machine) :=
  match sectorDiv sectors with
  | none => none
  | some d => some ({ chan := chan, mult := 100 / 1023, offs := 0, div := d }, construct p chan m)

/-- The constructor `AnalogInput (float zero, float span)` (line 123). -/
def ctorEng (p : Platform) (chan : Nat) (zero span : ℚ) (m : Machine) : AnalogInput × Machine :=
  ({ chan := chan, mult := (span - zero) / 1023, offs := zero, div := 1023 / 15 },
    construct p chan m)

/-- The converter as seen by the `k`-th poll of a conversion: once `latency` polls have
gone by it has cleared `ADSC` and latched the result. -/
def hwPoll (p : Platform) (cv : Conversion) (k : Nat) (m : Machine) : Machine :=
  if cv.latency ≤ k then
    { m with ADCSRA := m.ADCSRA &&& (0xFF ^^^ _BV p.ADSC), ADC := cv.result }
  else m

/-- The avr-libc macro `loop_until_bit_is_clear (ADCSRA, ADSC)`, that is
`do { } while (bit_is_set(ADCSRA, ADSC))`, with `fuel` bounding the number of polls
and `k` counting the polls already made.  `none`: the fuel ran out. -/
def loop_until_bit_is_clear (p : Platform) (cv : Conversion) :
    Nat → Nat → Machine → Option Machine
  | 0, _, _ => none
  | fuel + 1, k, m =>
    let (v, m1) := (hwPoll p cv k m).load Reg.ADCSRA
    if v.testBit p.ADSC then loop_until_bit_is_clear p cv fuel (k + 1) m1 else some m1

/-- The two statements under `#if defined(MUX5)` in `read()` (lines 140-143). -/
def selectMUX5 (p : Platform) (chan : Nat) (m : Machine) : Machine :=
  match p.MUX5 with
  | none => m
  | some b =>
    let m1 := m.andNotAssign Reg.ADCSRB (_BV b)
    m1.orAssign Reg.ADCSRB ((if chan > 7 then 1 else 0) <<< b)

/-- The method `read()` of `AnalogInput<chan>` (lines 135-149), without the object. -/
def readChan (p : Platform) (chan : Nat) (cv : Conversion) (fuel : Nat) (m : Machine) :
    Option (Nat × Machine) :=
  let m1 := m.andNotAssign Reg.ADMUX 0x07
  let m2 := m1.orAssign Reg.ADMUX (chan &&& 0x07)
  let m3 := selectMUX5 p chan m2
  let m4 := m3.orAssign Reg.ADCSRA (_BV p.ADSC)
  match loop_until_bit_is_clear p cv fuel 0 m4 with
  | none => none
  | some m5 =>
    let (v, m6) := m5.load Reg.ADC
    some (v % 65536, m6)

/-- The method `read()` (line 135). -/
def read (self : AnalogInput) (p : Platform) (cv : Conversion) (fuel : Nat) (m : Machine) :
    Option (Nat × Machine) :=
  readChan p self.chan cv fuel m

/-- The conversion operator `operator uint16_t ()` (line 153): `return read();`. -/
def operator_uint16_t (self : AnalogInput) (p : Platform) (cv : Conversion) (fuel : Nat)
    (m : Machine) : Option (Nat × Machine) :=
  self.read p cv fuel m

/-- The method `readEng()` (line 161): `(float) read() * this->mult + this->offs`. -/
def readEng (self : AnalogInput) (p : Platform) (cv : Conversion) (fuel : Nat) (m : Machine) :
    Option (ℚ × Machine) :=
  match self.read p cv fuel m with
  | none => none
  | some (v, m1) => some ((v : ℚ) * self.mult + self.offs, m1)

/-- The method `readSector()` (line 169): `read() / this->div`, returned as `uint8_t`.
`none` when the read does not finish or the divisor is zero. -/
def readSector (self : AnalogInput) (p : Platform) (cv : Conversion) (fuel : Nat) (m : Machine) :
    Option (Nat × Machine) :=
  match self.read p cv fuel m with
  | none => none
  | some (v, m1) => if self.div = 0 then none else some ((v / self.div) % 256, m1)

/-- Constructing one channel object after another, for the channel indices in `cs`. -/
def constructAll (p : Platform) (cs : List Nat) (m : Machine) : Machine :=
  cs.foldl (fun acc c => construct p c acc) m

/-- Bit numbers of the ATmega2560 (`MUX5` is bit 3 of `ADCSRB`). -/
def atmega2560 : Platform := { ADEN := 7, ADSC := 6, REFS0 := 6, MUX5 := some 3 }

/-- Bit numbers of the ATmega328P, which has no `MUX5`. -/
def atmega328p : Platform := { ADEN := 7, ADSC := 6, REFS0 := 6, MUX5 := none }

/-- A register file with every register zero and an empty access record. -/
def reset : Machine :=
  { ADCSRA := 0, ADCSRB := 0, ADMUX := 0, DIDR0 := 0, DIDR2 := 0, ADC := 0, trace := [] }

/-- The expression `1023 / (sectors-1)` of the member initialiser of `div` (line 105) as
the `int` it is computed in, before the conversion to `uint16_t`: `sectors` is promoted to
`int` and the quotient truncates toward zero.  `none` is the division by zero. -/
def sectorQuot (sectors : Nat) : Option Int :=
  if (sectors : Int) - 1 = 0 then none else some (Int.tdiv 1023 ((sectors : Int) - 1))

/-- The configuration written by `_init` (lines 76-77) is in place: `ADEN` and the three
prescaler bits `0x07` are set in `ADCSRA`, and `REFS0` is set in `ADMUX`. -/
def configured (p : Platform) (m : Machine) : Prop :=
  m.ADCSRA.testBit p.ADEN = true ∧ m.ADCSRA &&& 0x07 = 0x07 ∧ m.ADMUX.testBit p.REFS0 = true

instance (p : Platform) (m : Machine) : Decidable (configured p m) := by
  unfold configured
  infer_instance

end AnalogInput

namespace AnalogInput

theorem testBit_255 (i : Nat) : Nat.testBit 255 i = decide (i < 8) := by
  have h : (255 : Nat) = 2 ^ 8 - 1 := by norm_num
  rw [h, Nat.testBit_two_pow_sub_one]

theorem testBit_7 (i : Nat) : Nat.testBit 7 i = decide (i < 3) := by
  have h : (7 : Nat) = 2 ^ 3 - 1 := by norm_num
  rw [h, Nat.testBit_two_pow_sub_one]

theorem or_mod_idem (x k : Nat) : ((x ||| k) % 256 ||| k) % 256 = (x ||| k) % 256 := by
  apply Nat.eq_of_testBit_eq
  intro i
  have h256 : (256 : Nat) = 2 ^ 8 := by norm_num
  simp only [h256, Nat.testBit_mod_two_pow, Nat.testBit_or]
  cases decide (i < 8) <;> cases x.testBit i <;> cases k.testBit i <;> rfl

theorem low3_select (x c : Nat) :
    (((x &&& (0xFF ^^^ 0x07)) % 256) ||| (c &&& 0x07)) % 256 % 8 = c % 8 := by
  apply Nat.eq_of_testBit_eq
  intro i
  have h256 : (256 : Nat) = 2 ^ 8 := by norm_num
  have h8 : (8 : Nat) = 2 ^ 3 := by norm_num
  simp only [h256, h8, Nat.testBit_mod_two_pow, Nat.testBit_or, Nat.testBit_and,
    Nat.testBit_xor, testBit_255, testBit_7]
  by_cases h3 : i < 3
  · have h8 : i < 8 := by omega
    simp [h3, h8]
  · simp [h3]

theorem testBit_mod256 (x i : Nat) : (x % 256).testBit i = (decide (i < 8) && x.testBit i) := by
  have h256 : (256 : Nat) = 2 ^ 8 := by norm_num
  rw [h256, Nat.testBit_mod_two_pow]

theorem set_bit_mod (x b : Nat) (hb : b < 8) : ((x ||| _BV b) % 256).testBit b = true := by
  simp [testBit_mod256, _BV, Nat.one_shiftLeft, Nat.testBit_two_pow_self, hb]

theorem clear_bit (x b : Nat) (hb : b < 8) : (x &&& (0xFF ^^^ _BV b)).testBit b = false := by
  simp [_BV, Nat.one_shiftLeft, Nat.testBit_two_pow_self, testBit_255, hb]

theorem mux5_bit (x b c : Nat) (hb : b < 8) :
    ((((x &&& (0xFF ^^^ _BV b)) % 256) ||| ((if c > 7 then 1 else 0) <<< b)) % 256).testBit b
      = decide (8 ≤ c) := by
  by_cases hc : c > 7
  · have hc8 : 8 ≤ c := hc
    simp [testBit_mod256, _BV, Nat.one_shiftLeft, Nat.testBit_two_pow_self,
      testBit_255, hb, hc, hc8]
  · have hc8 : ¬ 8 ≤ c := hc
    simp [testBit_mod256, _BV, Nat.one_shiftLeft, Nat.testBit_two_pow_self,
      testBit_255, hb, hc, hc8]

/-- The wait loop finishes once the fuel exceeds the polls still to come, and it changes
only `ADCSRA` (the converter clears `ADSC`), `ADC` (the latched result) and the trace. -/
theorem loop_done (p : Platform) (cv : Conversion) (hADSC : p.ADSC < 8) :
    ∀ (n fuel k : Nat) (m : Machine), cv.latency = k + n → n < fuel →
      m.ADCSRA.testBit p.ADSC = true →
      ∃ m1, loop_until_bit_is_clear p cv fuel k m = some m1 ∧ m1.ADC = cv.result ∧
        m1.ADCSRA = m.ADCSRA &&& (0xFF ^^^ _BV p.ADSC) ∧ m1.ADCSRB = m.ADCSRB ∧
        m1.ADMUX = m.ADMUX ∧ m1.DIDR0 = m.DIDR0 ∧ m1.DIDR2 = m.DIDR2 := by
  intro n
  induction n with
  | zero =>
    intro fuel k m hlat hfuel hbit
    obtain ⟨f, rfl⟩ : ∃ f, fuel = f + 1 := ⟨fuel - 1, by omega⟩
    have hle : cv.latency ≤ k := by omega
    simp [loop_until_bit_is_clear, hwPoll, hle, Machine.load, Machine.get,
      clear_bit _ _ hADSC]
  | succ n ih =>
    intro fuel k m hlat hfuel hbit
    obtain ⟨f, rfl⟩ : ∃ f, fuel = f + 1 := ⟨fuel - 1, by omega⟩
    have hnle : ¬ cv.latency ≤ k := by omega
    have hrec := ih f (k + 1) { m with trace := m.trace ++ [Access.load Reg.ADCSRA m.ADCSRA] }
      (by omega) (by omega) hbit
    simpa [loop_until_bit_is_clear, hwPoll, hnle, Machine.load, Machine.get, hbit] using hrec

theorem selectMUX5_fields (p : Platform) (chan : Nat) (m : Machine) :
    (selectMUX5 p chan m).ADCSRB =
        (match p.MUX5 with
          | none => m.ADCSRB
          | some b =>
            (((m.ADCSRB &&& (0xFF ^^^ _BV b)) % 256) ||| ((if chan > 7 then 1 else 0) <<< b))
              % 256) ∧
      (selectMUX5 p chan m).ADCSRA = m.ADCSRA ∧ (selectMUX5 p chan m).ADMUX = m.ADMUX ∧
      (selectMUX5 p chan m).DIDR0 = m.DIDR0 ∧ (selectMUX5 p chan m).DIDR2 = m.DIDR2 ∧
      (selectMUX5 p chan m).ADC = m.ADC := by
  unfold selectMUX5
  cases p.MUX5 <;>
    simp [Machine.orAssign, Machine.andNotAssign, Machine.load, Machine.store, Machine.set,
      Machine.get]

/-- With `ADSC` inside the register and fuel beyond the latency, `read()` returns the latched
result (as `uint16_t`) and leaves the multiplexer registers as it programmed them. -/
theorem readChan_done (p : Platform) (chan : Nat) (cv : Conversion) (fuel : Nat) (m : Machine)
    (hADSC : p.ADSC < 8) (hfuel : cv.latency < fuel) :
    ∃ m1, readChan p chan cv fuel m = some (cv.result % 65536, m1) ∧
      m1.ADMUX = (((m.ADMUX &&& (0xFF ^^^ 0x07)) % 256) ||| (chan &&& 0x07)) % 256 ∧
      m1.ADCSRB =
        (match p.MUX5 with
          | none => m.ADCSRB
          | some b =>
            (((m.ADCSRB &&& (0xFF ^^^ _BV b)) % 256) ||| ((if chan > 7 then 1 else 0) <<< b))
              % 256) ∧
      m1.DIDR0 = m.DIDR0 ∧ m1.DIDR2 = m.DIDR2 := by
  obtain ⟨hB, hA, hM, hD0, hD2, -⟩ := selectMUX5_fields p chan
    ((m.andNotAssign Reg.ADMUX 0x07).orAssign Reg.ADMUX (chan &&& 0x07))
  have hbit : ((selectMUX5 p chan
      ((m.andNotAssign Reg.ADMUX 0x07).orAssign Reg.ADMUX (chan &&& 0x07))).orAssign
        Reg.ADCSRA (_BV p.ADSC)).ADCSRA.testBit p.ADSC = true := by
    simp [Machine.orAssign, Machine.load, Machine.store, Machine.set, Machine.get,
      set_bit_mod _ _ hADSC]
  obtain ⟨m5, hloop, hADC, -, h5B, h5M, h5D0, h5D2⟩ :=
    loop_done p cv hADSC cv.latency fuel 0 _ (by omega) hfuel hbit
  refine ⟨(m5.load Reg.ADC).2, ?_, ?_, ?_, ?_, ?_⟩
  · simp [readChan, hloop, Machine.load, Machine.get, hADC]
  · show m5.ADMUX = _
    rw [h5M]
    show (selectMUX5 p chan _).ADMUX = _
    rw [hM]
    rfl
  · show m5.ADCSRB = _
    rw [h5B]
    show (selectMUX5 p chan _).ADCSRB = _
    rw [hB]
    rfl
  · show m5.DIDR0 = _
    rw [h5D0]
    show (selectMUX5 p chan _).DIDR0 = _
    rw [hD0]
    rfl
  · show m5.DIDR2 = _
    rw [h5D2]
    show (selectMUX5 p chan _).DIDR2 = _
    rw [hD2]
    rfl

theorem readSector_done (a : AnalogInput) (p : Platform) (cv : Conversion) (fuel : Nat)
    (m : Machine) (hADSC : p.ADSC < 8) (hfuel : cv.latency < fuel) (hdiv : a.div ≠ 0) :
    ∃ m1, a.readSector p cv fuel m = some ((cv.result % 65536 / a.div) % 256, m1) := by
  obtain ⟨m1, h, -⟩ := readChan_done p a.chan cv fuel m hADSC hfuel
  exact ⟨m1, by simp [readSector, read, h, hdiv]⟩

theorem readEng_done (a : AnalogInput) (p : Platform) (cv : Conversion) (fuel : Nat)
    (m : Machine) (hADSC : p.ADSC < 8) (hfuel : cv.latency < fuel) :
    ∃ m1, a.readEng p cv fuel m
      = some (((cv.result % 65536 : Nat) : ℚ) * a.mult + a.offs, m1) := by
  obtain ⟨m1, h, -⟩ := readChan_done p a.chan cv fuel m hADSC hfuel
  exact ⟨m1, by simp [readEng, read, h]⟩

theorem sectorDiv_of_two_le (n : Nat) (h2 : 2 ≤ n) (h255 : n ≤ 255) :
    sectorDiv n = some (1023 / (n - 1)) := by
  obtain ⟨k, rfl⟩ : ∃ k, n = k + 1 := ⟨n - 1, by omega⟩
  have hk : ((k + 1 : Nat) : Int) - 1 = (k : Int) := by push_cast; ring
  have hne : (k : Int) ≠ 0 := by
    have : (1 : Int) ≤ (k : Int) := by exact_mod_cast (by omega : 1 ≤ k)
    omega
  have hq : Int.tdiv 1023 (k : Int) = ((1023 / k : Nat) : Int) := (Int.ofNat_tdiv 1023 k).symm
  have hlt : 1023 / k < 65536 := lt_of_le_of_lt (Nat.div_le_self 1023 k) (by norm_num)
  have hmod : Int.emod ((1023 / k : Nat) : Int) 65536 = ((1023 / k : Nat) : Int) :=
    Int.emod_eq_of_lt (by exact_mod_cast Nat.zero_le _) (by exact_mod_cast hlt)
  simp only [sectorDiv, hk, hne, if_false, hq, hmod, Int.toNat_ofNat, Nat.add_sub_cancel]

theorem construct_fields (p : Platform) (c : Nat) (m : Machine) :
    (construct p c m).ADCSRA = (m.ADCSRA ||| (_BV p.ADEN ||| 0x07)) % 256 ∧
      (construct p c m).ADMUX = (m.ADMUX ||| _BV p.REFS0) % 256 ∧
      (construct p c m).DIDR0 = (m.DIDR0 ||| _BV (c &&& 0x07)) % 256 ∧
      (construct p c m).DIDR2 = m.DIDR2 ∧ (construct p c m).ADCSRB = m.ADCSRB ∧
      (construct p c m).ADC = m.ADC ∧
      (construct p c m).storesTo Reg.ADCSRA = m.storesTo Reg.ADCSRA + 1 := by
  simp [construct, setup, ppChan, _init, Machine.orAssign, Machine.load, Machine.store,
    Machine.set, Machine.get, Machine.storesTo, List.countP_append, List.countP_cons]

theorem constructAll_cons (p : Platform) (c : Nat) (cs : List Nat) (m : Machine) :
    constructAll p (c :: cs) m = constructAll p cs (construct p c m) := rfl

theorem constructAll_stores (p : Platform) (cs : List Nat) :
    ∀ m : Machine,
      (constructAll p cs m).storesTo Reg.ADCSRA = m.storesTo Reg.ADCSRA + cs.length := by
  induction cs with
  | nil => intro m; rfl
  | cons c cs ih =>
    intro m
    rw [constructAll_cons, ih, (construct_fields p c m).2.2.2.2.2.2, List.length_cons]
    omega

theorem constructAll_ADCSRA (p : Platform) (x : Nat) (cs : List Nat) :
    ∀ m : Machine, m.ADCSRA = (x ||| (_BV p.ADEN ||| 0x07)) % 256 →
      (constructAll p cs m).ADCSRA = (x ||| (_BV p.ADEN ||| 0x07)) % 256 := by
  induction cs with
  | nil => intro m h; exact h
  | cons c cs ih =>
    intro m h
    rw [constructAll_cons]
    apply ih
    rw [(construct_fields p c m).1, h, or_mod_idem]

/-- C1: the digital-input-disable write of a construction.  For every channel index the
bit `chan & 7` is set in `DIDR0` and `DIDR2` is left as it was, because the branch of
`setup()` is chosen by the preprocessor; so index 12 sets bit 4 of the low-range register
`DIDR0` (0x10 from a zeroed register file) and does not touch the high-range register. -/
theorem C1_setup_always_writes_DIDR0 (p : Platform) (c : Nat) (m : Machine) :
    (construct p c m).DIDR0 = (m.DIDR0 ||| _BV (c &&& 0x07)) % 256 ∧
      (construct p c m).DIDR2 = m.DIDR2 ∧
      (ctor atmega2560 12 reset).2.DIDR0 = 0x10 ∧ (ctor atmega2560 12 reset).2.DIDR2 = 0 := by
  refine ⟨(construct_fields p c m).2.2.1, (construct_fields p c m).2.2.2.1, ?_, ?_⟩ <;> decide

/-- C2: with 33 sectors the divisor is 1023/32 = 31, and raw code 1023 makes `readSector()`
return 33, which is above `sectors - 1 = 32`. -/
theorem C2_sectors33_raw1023_returns_33 :
    ∃ a m1 m2, ctorSectors atmega2560 0 33 reset = some (a, m1) ∧ a.div = 31 ∧
      a.readSector atmega2560 { latency := 0, result := 1023 } 1 m1 = some (33, m2) ∧
      ¬ (33 ≤ 33 - 1) := by
  obtain ⟨m2, h⟩ := readSector_done
    { chan := 0, mult := 100 / 1023, offs := 0, div := 31 } atmega2560
    { latency := 0, result := 1023 } 1 (construct atmega2560 0 reset)
    (by decide) (by decide) (by decide)
  refine ⟨_, _, m2, ?_, rfl, h, by decide⟩
  rw [ctorSectors, sectorDiv_of_two_le 33 (by decide) (by decide)]

/-- C3, as stated, fails: constructing two channel objects (indices 0 and 1) from a zeroed
register file stores the enable/prescaler value 0x87 to `ADCSRA` twice, not once. -/
theorem C3_two_constructions_write_twice :
    (constructAll atmega2560 [0, 1] reset).storesTo Reg.ADCSRA = 2 ∧
      (constructAll atmega2560 [0, 1] reset).trace.count (Access.store Reg.ADCSRA 0x87) = 2 ∧
      ¬ ((constructAll atmega2560 [0, 1] reset).storesTo Reg.ADCSRA = 1) := by
  decide

/-- C3, amended: constructing N >= 1 channel objects performs exactly N stores to `ADCSRA`,
one per construction, and after them `ADCSRA` holds the value the first construction
left, the old content with `ADEN` and the three prescaler bits or-ed in. -/
theorem C3_one_enable_write_per_construction (p : Platform) (cs : List Nat) (m : Machine)
    (hN : 1 ≤ cs.length) :
    (constructAll p cs m).storesTo Reg.ADCSRA = m.storesTo Reg.ADCSRA + cs.length ∧
      (constructAll p cs m).ADCSRA = (m.ADCSRA ||| (_BV p.ADEN ||| 0x07)) % 256 := by
  refine ⟨constructAll_stores p cs m, ?_⟩
  cases cs with
  | nil => simp at hN
  | cons c cs =>
    rw [constructAll_cons]
    exact constructAll_ADCSRA p m.ADCSRA cs _ (construct_fields p c m).1

theorem C3_one_enable_write_per_construction_witness :
    1 ≤ [3, 12, 3].length ∧
      ((constructAll atmega2560 [3, 12, 3] reset).storesTo Reg.ADCSRA
          = reset.storesTo Reg.ADCSRA + [3, 12, 3].length ∧
        (constructAll atmega2560 [3, 12, 3] reset).ADCSRA
          = (reset.ADCSRA ||| (_BV atmega2560.ADEN ||| 0x07)) % 256) :=
  ⟨by decide, C3_one_enable_write_per_construction atmega2560 [3, 12, 3] reset (by decide)⟩

/-- C4: for a channel index in 0..15 and any prior register state, `read()` finishes (given
fuel beyond the conversion latency) and leaves the low three bits of `ADMUX` equal to
the index mod 8; where `MUX5` exists, that bit of `ADCSRB` is set exactly when the
index is 8 or more. -/
theorem C4_read_programs_multiplexer (a : AnalogInput) (p : Platform) (cv : Conversion)
    (fuel : Nat) (m : Machine) (_hc : a.chan ≤ 15) (hADSC : p.ADSC < 8)
    (hMUX5 : ∀ b, p.MUX5 = some b → b < 8) (hfuel : cv.latency < fuel) :
    ∃ v m1, a.read p cv fuel m = some (v, m1) ∧ m1.ADMUX % 8 = a.chan % 8 ∧
      ∀ b, p.MUX5 = some b → m1.ADCSRB.testBit b = decide (8 ≤ a.chan) := by
  obtain ⟨m1, h, hM, hB, -⟩ := readChan_done p a.chan cv fuel m hADSC hfuel
  refine ⟨_, m1, h, ?_, ?_⟩
  · rw [hM]
    exact low3_select m.ADMUX a.chan
  · intro b hb
    rw [hB, hb]
    exact mux5_bit m.ADCSRB b a.chan (hMUX5 b hb)

theorem C4_read_programs_multiplexer_witness :
    (12 ≤ 15 ∧ atmega2560.ADSC < 8 ∧ (∀ b, atmega2560.MUX5 = some b → b < 8) ∧ 2 < 5) ∧
      ∃ v m1, (ctor atmega2560 12 reset).1.read atmega2560 { latency := 2, result := 777 } 5
          (ctor atmega2560 12 reset).2 = some (v, m1) ∧
        m1.ADMUX % 8 = (ctor atmega2560 12 reset).1.chan % 8 ∧
        ∀ b, atmega2560.MUX5 = some b →
          m1.ADCSRB.testBit b = decide (8 ≤ (ctor atmega2560 12 reset).1.chan) :=
  ⟨⟨by decide, by decide, by intro b hb; cases hb; decide, by decide⟩,
    C4_read_programs_multiplexer (ctor atmega2560 12 reset).1 atmega2560
      { latency := 2, result := 777 } 5 (ctor atmega2560 12 reset).2
      (by decide) (by decide) (by intro b hb; cases hb; decide) (by decide)⟩

/-- C5: for a sector count n in 2..255 the constructor succeeds with divisor 1023/(n-1),
and `readSector()` on that object returns raw/divisor for every raw code up to 1023; for
n = 4 the divisor is 341 and raw codes 0, 340, 341, 682, 1021, 1023 give sectors
0, 0, 1, 2, 2, 3. -/
theorem C5_sector_divisor_and_quotient (p : Platform) (c n : Nat) (m0 : Machine)
    (h2 : 2 ≤ n) (h255 : n ≤ 255) :
    ∃ a m1, ctorSectors p c n m0 = some (a, m1) ∧ a.div = 1023 / (n - 1) ∧
      (∀ (cv : Conversion) (fuel : Nat) (m : Machine), p.ADSC < 8 → cv.latency < fuel →
        cv.result ≤ 1023 →
        ∃ m2, a.readSector p cv fuel m = some (cv.result / (1023 / (n - 1)), m2)) ∧
      (n = 4 → a.div = 341 ∧
        ∀ rs ∈ [(0, 0), (340, 0), (341, 1), (682, 2), (1021, 2), (1023, 3)],
          ∀ (lat fuel : Nat) (m : Machine), p.ADSC < 8 → lat < fuel →
            ∃ m2, a.readSector p { latency := lat, result := rs.1 } fuel m
              = some (rs.2, m2)) := by
  refine ⟨{ chan := c, mult := 100 / 1023, offs := 0, div := 1023 / (n - 1) },
    construct p c m0, ?_, rfl, ?_, ?_⟩
  · rw [ctorSectors, sectorDiv_of_two_le n h2 h255]
  · intro cv fuel m hADSC hfuel hr
    have hpos : 0 < 1023 / (n - 1) := Nat.div_pos (by omega) (by omega)
    obtain ⟨m2, h⟩ := readSector_done
      { chan := c, mult := 100 / 1023, offs := 0, div := 1023 / (n - 1) } p cv fuel m
      hADSC hfuel (Nat.ne_of_gt hpos)
    have hmod : cv.result % 65536 = cv.result := Nat.mod_eq_of_lt (by omega)
    have h4 : 4 ≤ 1023 / (n - 1) := by
      rw [Nat.le_div_iff_mul_le (by omega)]
      omega
    have hq : cv.result / (1023 / (n - 1)) ≤ 255 := by
      calc cv.result / (1023 / (n - 1)) ≤ cv.result / 4 := Nat.div_le_div_left h4 (by norm_num)
        _ ≤ 255 := by omega
    have hq256 : cv.result / (1023 / (n - 1)) % 256 = cv.result / (1023 / (n - 1)) :=
      Nat.mod_eq_of_lt (by omega)
    refine ⟨m2, ?_⟩
    rw [h]
    simp only [hmod, hq256]
  · rintro rfl
    refine ⟨rfl, ?_⟩
    intro rs hrs lat fuel m hADSC hfuel
    have key : ∀ r s : Nat, (r % 65536 / 341) % 256 = s →
        ∃ m2, readSector { chan := c, mult := 100 / 1023, offs := 0, div := 1023 / (4 - 1) } p
          { latency := lat, result := r } fuel m = some (s, m2) := by
      intro r s hrs
      obtain ⟨m2, h⟩ := readSector_done
        { chan := c, mult := 100 / 1023, offs := 0, div := 1023 / (4 - 1) } p
        { latency := lat, result := r } fuel m hADSC hfuel
        (show 1023 / (4 - 1) ≠ 0 by decide)
      exact ⟨m2, by rw [h, ← hrs]⟩
    simp only [List.mem_cons, List.mem_singleton, List.not_mem_nil, or_false] at hrs
    rcases hrs with rfl | rfl | rfl | rfl | rfl | rfl <;> exact key _ _ (by decide)

theorem C5_sector_divisor_and_quotient_witness :
    (2 ≤ 4 ∧ 4 ≤ 255) ∧
      ∃ a m1, ctorSectors atmega2560 5 4 reset = some (a, m1) ∧ a.div = 1023 / (4 - 1) ∧
        (∀ (cv : Conversion) (fuel : Nat) (m : Machine), atmega2560.ADSC < 8 →
          cv.latency < fuel → cv.result ≤ 1023 →
          ∃ m2, a.readSector atmega2560 cv fuel m
            = some (cv.result / (1023 / (4 - 1)), m2)) ∧
        (4 = 4 → a.div = 341 ∧
          ∀ rs ∈ [(0, 0), (340, 0), (341, 1), (682, 2), (1021, 2), (1023, 3)],
            ∀ (lat fuel : Nat) (m : Machine), atmega2560.ADSC < 8 → lat < fuel →
              ∃ m2, a.readSector atmega2560 { latency := lat, result := rs.1 } fuel m
                = some (rs.2, m2)) :=
  ⟨by decide, C5_sector_divisor_and_quotient atmega2560 5 4 reset (by decide) (by decide)⟩

/-- C6: a default-constructed channel has divisor 68, and its `readSector()` is
non-decreasing in the raw code over 0..1023, never above 15, 0 at raw code 0 and 15 at
raw code 1023. -/
theorem C6_default_sector_monotone (p : Platform) (c : Nat) (m0 : Machine)
    (cv1 cv2 : Conversion) (fuel1 fuel2 : Nat) (m1 m2 : Machine)
    (hADSC : p.ADSC < 8) (hf1 : cv1.latency < fuel1) (hf2 : cv2.latency < fuel2)
    (hle : cv1.result ≤ cv2.result) (hmax : cv2.result ≤ 1023) :
    (ctor p c m0).1.div = 68 ∧
      ∃ s1 s2 n1 n2, (ctor p c m0).1.readSector p cv1 fuel1 m1 = some (s1, n1) ∧
        (ctor p c m0).1.readSector p cv2 fuel2 m2 = some (s2, n2) ∧
        s1 ≤ s2 ∧ s2 ≤ 15 ∧ (cv1.result = 0 → s1 = 0) ∧ (cv2.result = 1023 → s2 = 15) := by
  have hdiv : (ctor p c m0).1.div = 68 := rfl
  obtain ⟨n1, h1⟩ := readSector_done (ctor p c m0).1 p cv1 fuel1 m1 hADSC hf1
    (by rw [hdiv]; decide)
  obtain ⟨n2, h2⟩ := readSector_done (ctor p c m0).1 p cv2 fuel2 m2 hADSC hf2
    (by rw [hdiv]; decide)
  rw [hdiv] at h1 h2
  refine ⟨hdiv, _, _, n1, n2, h1, h2, ?_, ?_, ?_, ?_⟩
  · omega
  · omega
  · intro h0
    rw [h0]
  · intro h1023
    rw [h1023]

theorem C6_default_sector_monotone_witness :
    (atmega2560.ADSC < 8 ∧ 0 < 1 ∧ 3 < 9 ∧ 67 ≤ 68 ∧ 68 ≤ 1023) ∧
      ((ctor atmega2560 0 reset).1.div = 68 ∧
        ∃ s1 s2 n1 n2,
          (ctor atmega2560 0 reset).1.readSector atmega2560 { latency := 0, result := 67 } 1
              reset = some (s1, n1) ∧
            (ctor atmega2560 0 reset).1.readSector atmega2560 { latency := 3, result := 68 } 9
              reset = some (s2, n2) ∧
            s1 ≤ s2 ∧ s2 ≤ 15 ∧ ((67 : Nat) = 0 → s1 = 0) ∧ ((68 : Nat) = 1023 → s2 = 15)) :=
  ⟨by decide, C6_default_sector_monotone atmega2560 0 reset { latency := 0, result := 67 }
    { latency := 3, result := 68 } 1 9 reset reset (by decide) (by decide) (by decide)
    (by decide) (by decide)⟩

/-- C7: for an engineering range (zero, span), `readEng()` in exact arithmetic is the line
through (0, zero) and (1023, span): raw code 0 gives zero, raw code 1023 gives span, and
for (10, 20) raw code 512 gives 10 + 5120/1023, within 10/1023 of the midpoint 15. -/
theorem C7_readEng_two_point_line (p : Platform) (c : Nat) (zero span : ℚ) (m0 : Machine)
    (cv : Conversion) (fuel : Nat) (m : Machine) (hADSC : p.ADSC < 8)
    (hfuel : cv.latency < fuel) (hr : cv.result ≤ 1023) :
    ∃ y m1, (ctorEng p c zero span m0).1.readEng p cv fuel m = some (y, m1) ∧
      y = zero + (cv.result : ℚ) * (span - zero) / 1023 ∧
      (cv.result = 0 → y = zero) ∧ (cv.result = 1023 → y = span) ∧
      (zero = 10 → span = 20 → cv.result = 512 →
        y = 10 + 5120 / 1023 ∧ |y - 15| ≤ 10 / 1023) := by
  obtain ⟨m1, h⟩ := readEng_done (ctorEng p c zero span m0).1 p cv fuel m hADSC hfuel
  have hmod : cv.result % 65536 = cv.result := Nat.mod_eq_of_lt (by omega)
  rw [hmod] at h
  refine ⟨_, m1, h, ?_, ?_, ?_, ?_⟩
  · simp only [ctorEng]
    ring
  · intro h0
    simp [ctorEng, h0]
  · intro h1023
    simp only [ctorEng, h1023]
    push_cast
    ring
  · intro hz hs h512
    simp only [ctorEng, hz, hs, h512]
    push_cast
    constructor
    · norm_num
    · rw [abs_le]
      constructor <;> norm_num

theorem C7_readEng_two_point_line_witness :
    (atmega2560.ADSC < 8 ∧ 1 < 4 ∧ 512 ≤ 1023) ∧
      ∃ y m1, (ctorEng atmega2560 2 10 20 reset).1.readEng atmega2560
          { latency := 1, result := 512 } 4 reset = some (y, m1) ∧
        y = 10 + ((512 : Nat) : ℚ) * (20 - 10) / 1023 ∧
        ((512 : Nat) = 0 → y = 10) ∧ ((512 : Nat) = 1023 → y = 20) ∧
        ((10 : ℚ) = 10 → (20 : ℚ) = 20 → (512 : Nat) = 512 →
          y = 10 + 5120 / 1023 ∧ |y - 15| ≤ 10 / 1023) :=
  ⟨by decide, C7_readEng_two_point_line atmega2560 2 10 20 reset
    { latency := 1, result := 512 } 4 reset (by decide) (by decide) (by decide)⟩

/-- C8: for an engineering range (zero, span) in either order and a raw code in 0..1023,
`readEng()` in exact arithmetic lies between min(zero, span) and max(zero, span). -/
theorem C8_readEng_between_range_ends (p : Platform) (c : Nat) (zero span : ℚ) (m0 : Machine)
    (cv : Conversion) (fuel : Nat) (m : Machine) (hADSC : p.ADSC < 8)
    (hfuel : cv.latency < fuel) (hr : cv.result ≤ 1023) :
    ∃ y m1, (ctorEng p c zero span m0).1.readEng p cv fuel m = some (y, m1) ∧
      min zero span ≤ y ∧ y ≤ max zero span := by
  obtain ⟨m1, h⟩ := readEng_done (ctorEng p c zero span m0).1 p cv fuel m hADSC hfuel
  have hmod : cv.result % 65536 = cv.result := Nat.mod_eq_of_lt (by omega)
  rw [hmod] at h
  have hr0 : (0 : ℚ) ≤ (cv.result : ℚ) := Nat.cast_nonneg _
  have hr1 : (cv.result : ℚ) ≤ 1023 := by exact_mod_cast hr
  have hspan : span = zero + 1023 * ((span - zero) / 1023) := by ring
  refine ⟨_, m1, h, ?_, ?_⟩
  · simp only [ctorEng]
    rcases le_total zero span with hzs | hzs
    · rw [min_eq_left hzs]
      have hd : 0 ≤ (span - zero) / 1023 := div_nonneg (sub_nonneg.mpr hzs) (by norm_num)
      nlinarith [mul_nonneg hr0 hd]
    · rw [min_eq_right hzs]
      have hd : (span - zero) / 1023 ≤ 0 :=
        div_nonpos_of_nonpos_of_nonneg (sub_nonpos.mpr hzs) (by norm_num)
      nlinarith [mul_nonneg (sub_nonneg.mpr hr1) (neg_nonneg.mpr hd)]
  · simp only [ctorEng]
    rcases le_total zero span with hzs | hzs
    · rw [max_eq_right hzs]
      have hd : 0 ≤ (span - zero) / 1023 := div_nonneg (sub_nonneg.mpr hzs) (by norm_num)
      nlinarith [mul_nonneg (sub_nonneg.mpr hr1) hd]
    · rw [max_eq_left hzs]
      have hd : (span - zero) / 1023 ≤ 0 :=
        div_nonpos_of_nonpos_of_nonneg (sub_nonpos.mpr hzs) (by norm_num)
      nlinarith [mul_nonneg hr0 (neg_nonneg.mpr hd)]

theorem C8_readEng_between_range_ends_witness :
    (atmega2560.ADSC < 8 ∧ 0 < 1 ∧ 300 ≤ 1023) ∧
      ∃ y m1, (ctorEng atmega2560 1 50 (-40) reset).1.readEng atmega2560
          { latency := 0, result := 300 } 1 reset = some (y, m1) ∧
        min 50 (-40) ≤ y ∧ y ≤ max 50 (-40) :=
  ⟨by decide, C8_readEng_between_range_ends atmega2560 1 50 (-40) reset
    { latency := 0, result := 300 } 1 reset (by decide) (by decide) (by decide)⟩

/-- C9: when the converter delivers a code v in 0..1023, `read()` finishes and returns v
unchanged, and `operator uint16_t` gives the same result and the same machine as
`read()`. -/
theorem C9_read_returns_conversion_result (a : AnalogInput) (p : Platform) (cv : Conversion)
    (fuel : Nat) (m : Machine) (hADSC : p.ADSC < 8) (hfuel : cv.latency < fuel)
    (hv : cv.result ≤ 1023) :
    ∃ m1, a.read p cv fuel m = some (cv.result, m1) ∧
      a.operator_uint16_t p cv fuel m = some (cv.result, m1) := by
  obtain ⟨m1, h, -⟩ := readChan_done p a.chan cv fuel m hADSC hfuel
  have hmod : cv.result % 65536 = cv.result := Nat.mod_eq_of_lt (by omega)
  rw [hmod] at h
  exact ⟨m1, h, h⟩

theorem C9_read_returns_conversion_result_witness :
    (atmega328p.ADSC < 8 ∧ 13 < 20 ∧ 777 ≤ 1023) ∧
      ∃ m1, (ctor atmega328p 5 reset).1.read atmega328p { latency := 13, result := 777 } 20
          (ctor atmega328p 5 reset).2 = some (777, m1) ∧
        (ctor atmega328p 5 reset).1.operator_uint16_t atmega328p
          { latency := 13, result := 777 } 20 (ctor atmega328p 5 reset).2 = some (777, m1) :=
  ⟨by decide, C9_read_returns_conversion_result (ctor atmega328p 5 reset).1 atmega328p
    { latency := 13, result := 777 } 20 (ctor atmega328p 5 reset).2
    (by decide) (by decide) (by decide)⟩

/-- C10: on the registers the controller initialisation is idempotent: running `_init`
twice leaves every register as one run left it, and a second construction leaves
`ADCSRA` and `ADMUX` exactly as the first construction left them. -/
theorem C10_init_idempotent_on_registers (p : Platform) (m : Machine) (c1 c2 : Nat) :
    (_init p (_init p m)).regs = (_init p m).regs ∧
      (construct p c2 (construct p c1 m)).ADCSRA = (construct p c1 m).ADCSRA ∧
      (construct p c2 (construct p c1 m)).ADMUX = (construct p c1 m).ADMUX := by
  refine ⟨?_, ?_, ?_⟩
  · simp [_init, Machine.regs, Machine.orAssign, Machine.load, Machine.store, Machine.set,
      Machine.get, or_mod_idem]
  · rw [(construct_fields p c2 _).1, (construct_fields p c1 m).1, or_mod_idem]
  · rw [(construct_fields p c2 _).2.1, (construct_fields p c1 m).2.1, or_mod_idem]

theorem four_le_sectorDiv (n : Nat) (h2 : 2 ≤ n) (h255 : n ≤ 255) : 4 ≤ 1023 / (n - 1) := by
  rw [Nat.le_div_iff_mul_le (by omega)]
  omega

/-- With a divisor of at least 4 and a raw code of at most 1023 the `uint8_t` returned by
`readSector()` is the quotient itself. -/
theorem readSector_quot (a : AnalogInput) (p : Platform) (cv : Conversion) (fuel : Nat)
    (m : Machine) (hADSC : p.ADSC < 8) (hfuel : cv.latency < fuel) (hd : 4 ≤ a.div)
    (hr : cv.result ≤ 1023) :
    ∃ m1, a.readSector p cv fuel m = some (cv.result / a.div, m1) ∧ cv.result / a.div ≤ 255 := by
  obtain ⟨m1, h⟩ := readSector_done a p cv fuel m hADSC hfuel (by omega)
  have hmod : cv.result % 65536 = cv.result := Nat.mod_eq_of_lt (by omega)
  have hq : cv.result / a.div ≤ 255 := by
    calc cv.result / a.div ≤ cv.result / 4 := Nat.div_le_div_left hd (by norm_num)
      _ ≤ 255 := by omega
  have hq256 : cv.result / a.div % 256 = cv.result / a.div := Nat.mod_eq_of_lt (by omega)
  refine ⟨m1, ?_, hq⟩
  rw [h]
  simp only [hmod, hq256]

theorem sectorDiv_of_ne_one (n : Nat) (hn : n ≠ 1) : ∃ d, sectorDiv n = some d := by
  have hne : ¬ ((n : Int) - 1 = 0) := by omega
  unfold sectorDiv
  rw [if_neg hne]
  exact ⟨_, rfl⟩

/-- C11: the constants of the three construction modes (in exact arithmetic).  Default:
scale 100/1023, offset 0, divisor 1023/15 = 68, the same object and register effect as the
sector-count constructor with n = 16.  Sector count n (n = 1, the division by zero,
excepted): scale 100/1023 and offset 0.  Engineering range: scale (span - zero)/1023,
offset zero, divisor 68. -/
theorem C11_constructor_constants (p : Platform) (c n : Nat) (zero span : ℚ) (m0 : Machine)
    (hn : n ≠ 1) :
    ((ctor p c m0).1.mult = 100 / 1023 ∧ (ctor p c m0).1.offs = 0 ∧
        (ctor p c m0).1.div = 1023 / 15 ∧ (ctor p c m0).1.div = 68) ∧
      ctorSectors p c 16 m0 = some (ctor p c m0) ∧
      (∃ a m1, ctorSectors p c n m0 = some (a, m1) ∧ a.mult = 100 / 1023 ∧ a.offs = 0) ∧
      ((ctorEng p c zero span m0).1.mult = (span - zero) / 1023 ∧
        (ctorEng p c zero span m0).1.offs = zero ∧ (ctorEng p c zero span m0).1.div = 68) := by
  refine ⟨⟨rfl, rfl, rfl, rfl⟩, ?_, ?_, ⟨rfl, rfl, rfl⟩⟩
  · rw [ctorSectors, sectorDiv_of_two_le 16 (by decide) (by decide)]
    rfl
  · obtain ⟨d, hd⟩ := sectorDiv_of_ne_one n hn
    exact ⟨_, _, by rw [ctorSectors, hd], rfl, rfl⟩

theorem C11_constructor_constants_witness :
    (0 : Nat) ≠ 1 ∧
      (((ctor atmega2560 4 reset).1.mult = 100 / 1023 ∧ (ctor atmega2560 4 reset).1.offs = 0 ∧
          (ctor atmega2560 4 reset).1.div = 1023 / 15 ∧ (ctor atmega2560 4 reset).1.div = 68) ∧
        ctorSectors atmega2560 4 16 reset = some (ctor atmega2560 4 reset) ∧
        (∃ a m1, ctorSectors atmega2560 4 0 reset = some (a, m1) ∧ a.mult = 100 / 1023 ∧
          a.offs = 0) ∧
        ((ctorEng atmega2560 4 (-5) 5 reset).1.mult = (5 - (-5)) / 1023 ∧
          (ctorEng atmega2560 4 (-5) 5 reset).1.offs = -5 ∧
          (ctorEng atmega2560 4 (-5) 5 reset).1.div = 68)) :=
  ⟨by decide, C11_constructor_constants atmega2560 4 0 (-5) 5 reset (by decide)⟩

/-- C12: for a sector count n in 0..255 the `int` quotient 1023/(n-1) is defined and
positive exactly when n >= 2; n = 1 divides by zero and n = 0 gives -1023.  The stored
divisor is that quotient converted to `uint16_t`, and for n >= 2 it is not zero, so
`readSector()` on the constructed object never divides by zero and returns. -/
theorem C12_divisor_defined_iff_two_le (p : Platform) (c n : Nat) (m0 : Machine)
    (h255 : n ≤ 255) :
    ((∃ q, sectorQuot n = some q ∧ 0 < q) ↔ 2 ≤ n) ∧
      sectorQuot 1 = none ∧ sectorQuot 0 = some (-1023) ∧
      sectorDiv n = (sectorQuot n).map (fun q => Int.toNat (Int.emod q 65536)) ∧
      (2 ≤ n → ∃ a m1, ctorSectors p c n m0 = some (a, m1) ∧ a.div ≠ 0 ∧
        ∀ (cv : Conversion) (fuel : Nat) (m : Machine), p.ADSC < 8 → cv.latency < fuel →
          ∃ s m2, a.readSector p cv fuel m = some (s, m2)) := by
  refine ⟨?_, by decide, by decide, ?_, ?_⟩
  · constructor
    · rintro ⟨q, hq, hpos⟩
      by_contra hlt
      have hn : n = 0 ∨ n = 1 := by omega
      rcases hn with rfl | rfl
      · have h0 : sectorQuot 0 = some (-1023) := by decide
        rw [h0] at hq
        cases hq
        omega
      · have h1 : sectorQuot 1 = none := by decide
        rw [h1] at hq
        cases hq
    · intro h2
      obtain ⟨k, rfl⟩ : ∃ k, n = k + 1 := ⟨n - 1, by omega⟩
      have hk : ((k + 1 : Nat) : Int) - 1 = (k : Int) := by push_cast; ring
      have hne : ¬ ((k : Int) = 0) := by omega
      have hq : Int.tdiv 1023 (k : Int) = ((1023 / k : Nat) : Int) :=
        (Int.ofNat_tdiv 1023 k).symm
      have h4 : 4 ≤ 1023 / k := by simpa using four_le_sectorDiv (k + 1) h2 h255
      refine ⟨((1023 / k : Nat) : Int), ?_, by omega⟩
      simp only [sectorQuot, hk, hne, if_false, hq]
  · unfold sectorDiv sectorQuot
    split <;> rfl
  · intro h2
    have h4 := four_le_sectorDiv n h2 h255
    refine ⟨{ chan := c, mult := 100 / 1023, offs := 0, div := 1023 / (n - 1) },
      construct p c m0, ?_, ?_, ?_⟩
    · rw [ctorSectors, sectorDiv_of_two_le n h2 h255]
    · show 1023 / (n - 1) ≠ 0
      omega
    · intro cv fuel m hADSC hfuel
      obtain ⟨m2, h⟩ := readSector_done
        { chan := c, mult := 100 / 1023, offs := 0, div := 1023 / (n - 1) } p cv fuel m
        hADSC hfuel (show 1023 / (n - 1) ≠ 0 by omega)
      exact ⟨_, m2, h⟩

theorem C12_divisor_defined_iff_two_le_witness :
    2 ≤ 255 ∧
      (((∃ q, sectorQuot 2 = some q ∧ 0 < q) ↔ 2 ≤ 2) ∧
        sectorQuot 1 = none ∧ sectorQuot 0 = some (-1023) ∧
        sectorDiv 2 = (sectorQuot 2).map (fun q => Int.toNat (Int.emod q 65536)) ∧
        (2 ≤ 2 → ∃ a m1, ctorSectors atmega328p 1 2 reset = some (a, m1) ∧ a.div ≠ 0 ∧
          ∀ (cv : Conversion) (fuel : Nat) (m : Machine), atmega328p.ADSC < 8 →
            cv.latency < fuel → ∃ s m2, a.readSector atmega328p cv fuel m = some (s, m2))) :=
  ⟨by decide, C12_divisor_defined_iff_two_le atmega328p 1 2 reset (by decide)⟩

/-- The wait loop in closed form: `n` polls read `ADSC` set, the next one reads it clear;
nothing but `ADCSRA`, `ADC` and the trace changes. -/
theorem loop_exact (p : Platform) (cv : Conversion) (hADSC : p.ADSC < 8) :
    ∀ (n fuel k : Nat) (m : Machine), cv.latency = k + n → n < fuel →
      m.ADCSRA.testBit p.ADSC = true →
      loop_until_bit_is_clear p cv fuel k m = some
        { m with
          ADCSRA := m.ADCSRA &&& (0xFF ^^^ _BV p.ADSC)
          ADC := cv.result
          trace := m.trace ++ (List.replicate n (Access.load Reg.ADCSRA m.ADCSRA) ++
            [Access.load Reg.ADCSRA (m.ADCSRA &&& (0xFF ^^^ _BV p.ADSC))]) } := by
  intro n
  induction n with
  | zero =>
    intro fuel k m hlat hfuel hbit
    obtain ⟨f, rfl⟩ : ∃ f, fuel = f + 1 := ⟨fuel - 1, by omega⟩
    have hle : cv.latency ≤ k := by omega
    simp [loop_until_bit_is_clear, hwPoll, hle, Machine.load, Machine.get,
      clear_bit _ _ hADSC]
  | succ n ih =>
    intro fuel k m hlat hfuel hbit
    obtain ⟨f, rfl⟩ : ∃ f, fuel = f + 1 := ⟨fuel - 1, by omega⟩
    have hnle : ¬ cv.latency ≤ k := by omega
    have hrec := ih f (k + 1) { m with trace := m.trace ++ [Access.load Reg.ADCSRA m.ADCSRA] }
      (by omega) (by omega) hbit
    simp only [loop_until_bit_is_clear, hwPoll, hnle, if_false, Machine.load, Machine.get,
      hbit, if_true]
    rw [hrec]
    simp [List.replicate_succ]

/-- The whole of `read()` in closed form: the value returned, the registers it leaves and
the accesses it appends to the trace, in order. -/
theorem readChan_exact (p : Platform) (chan : Nat) (cv : Conversion) (fuel : Nat) (m : Machine)
    (hADSC : p.ADSC < 8) (hfuel : cv.latency < fuel) :
    ∃ m1, readChan p chan cv fuel m = some (cv.result % 65536, m1) ∧
      m1.ADCSRA = ((m.ADCSRA ||| _BV p.ADSC) % 256) &&& (0xFF ^^^ _BV p.ADSC) ∧
      m1.ADMUX = (((m.ADMUX &&& (0xFF ^^^ 0x07)) % 256) ||| (chan &&& 0x07)) % 256 ∧
      m1.trace = m.trace ++
        ([Access.load Reg.ADMUX m.ADMUX,
            Access.store Reg.ADMUX ((m.ADMUX &&& (0xFF ^^^ 0x07)) % 256),
            Access.load Reg.ADMUX ((m.ADMUX &&& (0xFF ^^^ 0x07)) % 256),
            Access.store Reg.ADMUX m1.ADMUX] ++
          (match p.MUX5 with
            | none => []
            | some b =>
              [Access.load Reg.ADCSRB m.ADCSRB,
                Access.store Reg.ADCSRB ((m.ADCSRB &&& (0xFF ^^^ _BV b)) % 256),
                Access.load Reg.ADCSRB ((m.ADCSRB &&& (0xFF ^^^ _BV b)) % 256),
                Access.store Reg.ADCSRB m1.ADCSRB]) ++
          [Access.load Reg.ADCSRA m.ADCSRA,
            Access.store Reg.ADCSRA ((m.ADCSRA ||| _BV p.ADSC) % 256)] ++
          List.replicate cv.latency (Access.load Reg.ADCSRA ((m.ADCSRA ||| _BV p.ADSC) % 256)) ++
          [Access.load Reg.ADCSRA (((m.ADCSRA ||| _BV p.ADSC) % 256) &&& (0xFF ^^^ _BV p.ADSC)),
            Access.load Reg.ADC cv.result]) := by
  have hbit : ((selectMUX5 p chan
      ((m.andNotAssign Reg.ADMUX 0x07).orAssign Reg.ADMUX (chan &&& 0x07))).orAssign
        Reg.ADCSRA (_BV p.ADSC)).ADCSRA.testBit p.ADSC = true := by
    simp [Machine.orAssign, Machine.load, Machine.store, Machine.set, Machine.get,
      set_bit_mod _ _ hADSC]
  unfold readChan
  simp only []
  rw [loop_exact p cv hADSC cv.latency fuel 0 _ (by omega) hfuel hbit]
  refine ⟨_, rfl, ?_, ?_, ?_⟩
  · cases hM : p.MUX5 <;>
      simp [selectMUX5, hM, Machine.orAssign, Machine.andNotAssign, Machine.load,
        Machine.store, Machine.set, Machine.get]
  · cases hM : p.MUX5 <;>
      simp [selectMUX5, hM, Machine.orAssign, Machine.andNotAssign, Machine.load,
        Machine.store, Machine.set, Machine.get]
  · cases hM : p.MUX5 <;>
      simp [selectMUX5, hM, Machine.orAssign, Machine.andNotAssign, Machine.load,
        Machine.store, Machine.set, Machine.get]

theorem and7_eq_iff (x : Nat) :
    x &&& 0x07 = 0x07 ↔ x.testBit 0 = true ∧ x.testBit 1 = true ∧ x.testBit 2 = true := by
  constructor
  · intro h
    have hbit : ∀ i, (x.testBit i && Nat.testBit 7 i) = Nat.testBit 7 i := by
      intro i
      rw [← Nat.testBit_and, h]
    refine ⟨?_, ?_, ?_⟩
    · simpa [testBit_7] using hbit 0
    · simpa [testBit_7] using hbit 1
    · simpa [testBit_7] using hbit 2
  · rintro ⟨h0, h1, h2⟩
    apply Nat.eq_of_testBit_eq
    intro i
    rw [Nat.testBit_and, testBit_7]
    by_cases h3 : i < 3
    · interval_cases i <;> simp [h0, h1, h2]
    · simp [h3]

theorem init_sets_bit (x aden i : Nat) (hi : i < 8) (h : i = aden ∨ i < 3) :
    ((x ||| (_BV aden ||| 0x07)) % 256).testBit i = true := by
  rcases h with rfl | h3
  · simp [testBit_mod256, _BV, Nat.one_shiftLeft, Nat.testBit_two_pow_self, hi]
  · simp [testBit_mod256, testBit_7, hi, h3]

theorem start_clear_keeps (x adsc i : Nat) (hi : i < 8) (hne : adsc ≠ i) :
    (((x ||| _BV adsc) % 256) &&& (0xFF ^^^ _BV adsc)).testBit i = x.testBit i := by
  simp [testBit_mod256, testBit_255, _BV, Nat.one_shiftLeft, Nat.testBit_two_pow, hi, hne]

theorem mux_keeps (x c r : Nat) (h8 : r < 8) (h3 : 3 ≤ r) (hx : x.testBit r = true) :
    ((((x &&& (0xFF ^^^ 0x07)) % 256) ||| (c &&& 0x07)) % 256).testBit r = true := by
  have h248 : Nat.testBit 248 r = true := by
    interval_cases r <;> decide
  simp [testBit_mod256, h8, hx, h248]

theorem construct_configured (p : Platform) (c : Nat) (m : Machine) (hADEN : p.ADEN < 8)
    (hREFS0 : p.REFS0 < 8) : configured p (construct p c m) := by
  obtain ⟨hA, hM, -⟩ := construct_fields p c m
  refine ⟨?_, ?_, ?_⟩
  · rw [hA]
    exact init_sets_bit _ _ _ hADEN (Or.inl rfl)
  · rw [hA, and7_eq_iff]
    exact ⟨init_sets_bit _ _ 0 (by norm_num) (Or.inr (by norm_num)),
      init_sets_bit _ _ 1 (by norm_num) (Or.inr (by norm_num)),
      init_sets_bit _ _ 2 (by norm_num) (Or.inr (by norm_num))⟩
  · rw [hM]
    exact set_bit_mod _ _ hREFS0

theorem readChan_configured (p : Platform) (chan : Nat) (cv : Conversion) (fuel : Nat)
    (m : Machine) (hADEN : p.ADEN < 8) (hREFS0 : p.REFS0 < 8) (hADSC : p.ADSC < 8)
    (hADSC3 : 3 ≤ p.ADSC) (hne : p.ADSC ≠ p.ADEN) (hREFS3 : 3 ≤ p.REFS0)
    (hfuel : cv.latency < fuel) (hm : configured p m) :
    ∃ m1, readChan p chan cv fuel m = some (cv.result % 65536, m1) ∧ configured p m1 := by
  obtain ⟨m1, h, hA, hM, -⟩ := readChan_exact p chan cv fuel m hADSC hfuel
  obtain ⟨c1, c2, c3⟩ := hm
  rw [and7_eq_iff] at c2
  refine ⟨m1, h, ?_, ?_, ?_⟩
  · rw [hA, start_clear_keeps _ _ _ hADEN hne]
    exact c1
  · rw [hA, and7_eq_iff, start_clear_keeps _ _ 0 (by norm_num) (by omega),
      start_clear_keeps _ _ 1 (by norm_num) (by omega),
      start_clear_keeps _ _ 2 (by norm_num) (by omega)]
    exact c2
  · rw [hM]
    exact mux_keeps _ _ _ hREFS0 hREFS3 c3

theorem and7_alias (c : Nat) : (8 + c % 8) &&& 0x07 = c &&& 0x07 := by
  have h7 : ∀ x : Nat, x &&& 0x07 = x % 8 := fun x => Nat.and_pow_two_sub_one_eq_mod x 3
  rw [h7, h7]
  omega

theorem readChan_alias (p : Platform) (c : Nat) (cv : Conversion) (fuel : Nat) (m : Machine)
    (hc : 8 ≤ c) : readChan p c cv fuel m = readChan p (8 + c % 8) cv fuel m := by
  have h1 : c > 7 := hc
  have h2 : 8 + c % 8 > 7 := by omega
  simp only [readChan, selectMUX5, and7_alias, if_pos h1, if_pos h2]

/-- C13: once a channel has been constructed, from any prior registers, `ADEN` and the
prescaler bits 0x07 are set in `ADCSRA` and `REFS0` is set in `ADMUX`; and from any state
where they are set, constructing another channel, `read()`, `readEng()` and `readSector()`
on any channel finish and leave them set.  The bit numbers are assumed to lie in their
registers, `ADSC` to differ from `ADEN` and the prescaler bits, and `REFS0` to be none of
the three channel bits. -/
theorem C13_configuration_is_kept (p : Platform) (c : Nat) (m0 : Machine)
    (hADEN : p.ADEN < 8) (hREFS0 : p.REFS0 < 8) (hADSC : p.ADSC < 8)
    (hADSC3 : 3 ≤ p.ADSC) (hne : p.ADSC ≠ p.ADEN) (hREFS3 : 3 ≤ p.REFS0) :
    configured p (construct p c m0) ∧
      ∀ m, configured p m →
        (∀ c2, configured p (construct p c2 m)) ∧
        ∀ (a : AnalogInput) (cv : Conversion) (fuel : Nat), cv.latency < fuel →
          (∃ v m1, a.read p cv fuel m = some (v, m1) ∧ configured p m1) ∧
          (∃ y m1, a.readEng p cv fuel m = some (y, m1) ∧ configured p m1) ∧
          (a.div ≠ 0 → ∃ s m1, a.readSector p cv fuel m = some (s, m1) ∧ configured p m1) := by
  refine ⟨construct_configured p c m0 hADEN hREFS0, ?_⟩
  intro m hm
  refine ⟨fun c2 => construct_configured p c2 m hADEN hREFS0, ?_⟩
  intro a cv fuel hfuel
  obtain ⟨m1, h, hc⟩ := readChan_configured p a.chan cv fuel m hADEN hREFS0 hADSC hADSC3 hne
    hREFS3 hfuel hm
  refine ⟨⟨_, m1, h, hc⟩, ⟨((cv.result % 65536 : Nat) : ℚ) * a.mult + a.offs, m1, ?_, hc⟩, ?_⟩
  · simp only [readEng, read, h]
  · intro hdiv
    exact ⟨(cv.result % 65536 / a.div) % 256, m1,
      by simp only [readSector, read, h, if_neg hdiv], hc⟩

theorem C13_configuration_is_kept_witness :
    (atmega2560.ADEN < 8 ∧ atmega2560.REFS0 < 8 ∧ atmega2560.ADSC < 8 ∧ 3 ≤ atmega2560.ADSC ∧
        atmega2560.ADSC ≠ atmega2560.ADEN ∧ 3 ≤ atmega2560.REFS0) ∧
      (configured atmega2560 (construct atmega2560 12 reset) ∧
        ∀ m, configured atmega2560 m →
          (∀ c2, configured atmega2560 (construct atmega2560 c2 m)) ∧
          ∀ (a : AnalogInput) (cv : Conversion) (fuel : Nat), cv.latency < fuel →
            (∃ v m1, a.read atmega2560 cv fuel m = some (v, m1) ∧ configured atmega2560 m1) ∧
            (∃ y m1, a.readEng atmega2560 cv fuel m = some (y, m1) ∧
              configured atmega2560 m1) ∧
            (a.div ≠ 0 → ∃ s m1, a.readSector atmega2560 cv fuel m = some (s, m1) ∧
              configured atmega2560 m1)) :=
  ⟨by decide, C13_configuration_is_kept atmega2560 12 reset (by decide) (by decide) (by decide)
    (by decide) (by decide) (by decide)⟩

/-- C14: the accesses one `read()` appends to the trace, in order: the two
read-modify-writes of `ADMUX`, ending with the store of the selection; where `MUX5` exists
the two read-modify-writes of `ADCSRB`; then the single store to `ADCSRA`, which has
`ADSC` set; then the polls of `ADCSRA`, of which only the last reads `ADSC` clear; and
last the load of `ADC`.  This holds from every state, so every call starts a conversion. -/
theorem C14_read_access_order (a : AnalogInput) (p : Platform) (cv : Conversion) (fuel : Nat)
    (m : Machine) (hADSC : p.ADSC < 8) (hMUX5 : ∀ b, p.MUX5 = some b → b < 8)
    (hfuel : cv.latency < fuel) :
    ∃ v m1, a.read p cv fuel m = some (v, m1) ∧
      m1.trace = m.trace ++
        ([Access.load Reg.ADMUX m.ADMUX,
            Access.store Reg.ADMUX ((m.ADMUX &&& (0xFF ^^^ 0x07)) % 256),
            Access.load Reg.ADMUX ((m.ADMUX &&& (0xFF ^^^ 0x07)) % 256),
            Access.store Reg.ADMUX m1.ADMUX] ++
          (match p.MUX5 with
            | none => []
            | some b =>
              [Access.load Reg.ADCSRB m.ADCSRB,
                Access.store Reg.ADCSRB ((m.ADCSRB &&& (0xFF ^^^ _BV b)) % 256),
                Access.load Reg.ADCSRB ((m.ADCSRB &&& (0xFF ^^^ _BV b)) % 256),
                Access.store Reg.ADCSRB m1.ADCSRB]) ++
          [Access.load Reg.ADCSRA m.ADCSRA,
            Access.store Reg.ADCSRA ((m.ADCSRA ||| _BV p.ADSC) % 256)] ++
          List.replicate cv.latency (Access.load Reg.ADCSRA ((m.ADCSRA ||| _BV p.ADSC) % 256)) ++
          [Access.load Reg.ADCSRA (((m.ADCSRA ||| _BV p.ADSC) % 256) &&& (0xFF ^^^ _BV p.ADSC)),
            Access.load Reg.ADC cv.result]) ∧
      m1.ADMUX % 8 = a.chan % 8 ∧
      (∀ b, p.MUX5 = some b → m1.ADCSRB.testBit b = decide (8 ≤ a.chan)) ∧
      ((m.ADCSRA ||| _BV p.ADSC) % 256).testBit p.ADSC = true ∧
      (((m.ADCSRA ||| _BV p.ADSC) % 256) &&& (0xFF ^^^ _BV p.ADSC)).testBit p.ADSC = false ∧
      m1.storesTo Reg.ADCSRA = m.storesTo Reg.ADCSRA + 1 ∧
      v = cv.result % 65536 := by
  obtain ⟨m1, h, -, hM, htrace⟩ := readChan_exact p a.chan cv fuel m hADSC hfuel
  obtain ⟨m2, h2, -, hB, -⟩ := readChan_done p a.chan cv fuel m hADSC hfuel
  have hm : m2 = m1 := by
    rw [h] at h2
    cases h2
    rfl
  subst hm
  refine ⟨_, m2, h, htrace, ?_, ?_, set_bit_mod _ _ hADSC, clear_bit _ _ hADSC, ?_, rfl⟩
  · rw [hM]
    exact low3_select m.ADMUX a.chan
  · intro b hb
    rw [hB, hb]
    exact mux5_bit m.ADCSRB b a.chan (hMUX5 b hb)
  · unfold Machine.storesTo
    rw [htrace]
    cases p.MUX5 <;>
      simp [List.countP_append, List.countP_cons, List.countP_replicate]

theorem C14_read_access_order_witness :
    (atmega2560.ADSC < 8 ∧ (∀ b, atmega2560.MUX5 = some b → b < 8) ∧ 2 < 3) ∧
      ∃ v m1, (ctor atmega2560 9 reset).1.read atmega2560 { latency := 2, result := 512 } 3
          reset = some (v, m1) ∧
        m1.trace = reset.trace ++
          ([Access.load Reg.ADMUX reset.ADMUX,
              Access.store Reg.ADMUX ((reset.ADMUX &&& (0xFF ^^^ 0x07)) % 256),
              Access.load Reg.ADMUX ((reset.ADMUX &&& (0xFF ^^^ 0x07)) % 256),
              Access.store Reg.ADMUX m1.ADMUX] ++
            (match atmega2560.MUX5 with
              | none => []
              | some b =>
                [Access.load Reg.ADCSRB reset.ADCSRB,
                  Access.store Reg.ADCSRB ((reset.ADCSRB &&& (0xFF ^^^ _BV b)) % 256),
                  Access.load Reg.ADCSRB ((reset.ADCSRB &&& (0xFF ^^^ _BV b)) % 256),
                  Access.store Reg.ADCSRB m1.ADCSRB]) ++
            [Access.load Reg.ADCSRA reset.ADCSRA,
              Access.store Reg.ADCSRA ((reset.ADCSRA ||| _BV atmega2560.ADSC) % 256)] ++
            List.replicate (2 : Nat)
              (Access.load Reg.ADCSRA ((reset.ADCSRA ||| _BV atmega2560.ADSC) % 256)) ++
            [Access.load Reg.ADCSRA
                (((reset.ADCSRA ||| _BV atmega2560.ADSC) % 256) &&&
                  (0xFF ^^^ _BV atmega2560.ADSC)),
              Access.load Reg.ADC 512]) ∧
        m1.ADMUX % 8 = (ctor atmega2560 9 reset).1.chan % 8 ∧
        (∀ b, atmega2560.MUX5 = some b →
          m1.ADCSRB.testBit b = decide (8 ≤ (ctor atmega2560 9 reset).1.chan)) ∧
        ((reset.ADCSRA ||| _BV atmega2560.ADSC) % 256).testBit atmega2560.ADSC = true ∧
        (((reset.ADCSRA ||| _BV atmega2560.ADSC) % 256) &&&
          (0xFF ^^^ _BV atmega2560.ADSC)).testBit atmega2560.ADSC = false ∧
        m1.storesTo Reg.ADCSRA = reset.storesTo Reg.ADCSRA + 1 ∧
        v = 512 % 65536 :=
  ⟨⟨by decide, by intro b hb; cases hb; decide, by decide⟩,
    C14_read_access_order (ctor atmega2560 9 reset).1 atmega2560
      { latency := 2, result := 512 } 3 reset (by decide) (by intro b hb; cases hb; decide)
      (by decide)⟩

/-- C15: a channel index c in 16..255 is addressed by its low bits only: `read()` behaves
exactly as on the valid channel 8 + (c mod 8), leaving the low three bits of `ADMUX` equal
to those of that channel and, where `MUX5` exists, that bit set. -/
theorem C15_out_of_range_index_aliases (a b : AnalogInput) (p : Platform) (cv : Conversion)
    (fuel : Nat) (m : Machine) (hlo : 16 ≤ a.chan) (_hhi : a.chan ≤ 255)
    (hb : b.chan = 8 + a.chan % 8) (hADSC : p.ADSC < 8)
    (hMUX5 : ∀ bit, p.MUX5 = some bit → bit < 8) (hfuel : cv.latency < fuel) :
    (8 ≤ b.chan ∧ b.chan ≤ 15) ∧ a.read p cv fuel m = b.read p cv fuel m ∧
      ∃ v m1, a.read p cv fuel m = some (v, m1) ∧ m1.ADMUX % 8 = b.chan % 8 ∧
        ∀ bit, p.MUX5 = some bit → m1.ADCSRB.testBit bit = true := by
  have h8 : 8 ≤ b.chan := by omega
  have halias : a.read p cv fuel m = b.read p cv fuel m := by
    unfold read
    rw [hb]
    exact readChan_alias p a.chan cv fuel m (by omega)
  obtain ⟨m1, h, hM, hB, -⟩ := readChan_done p b.chan cv fuel m hADSC hfuel
  refine ⟨⟨h8, by omega⟩, halias, _, m1, halias.trans h, ?_, ?_⟩
  · rw [hM]
    exact low3_select m.ADMUX b.chan
  · intro bit hbit
    rw [hB, hbit, mux5_bit m.ADCSRB bit b.chan (hMUX5 bit hbit)]
    simpa using h8

theorem C15_out_of_range_index_aliases_witness :
    (16 ≤ 29 ∧ 29 ≤ 255 ∧ 13 = 8 + 29 % 8 ∧ atmega2560.ADSC < 8 ∧
        (∀ bit, atmega2560.MUX5 = some bit → bit < 8) ∧ 1 < 2) ∧
      ((8 ≤ (AnalogInput.mk 13 (100 / 1023) 0 68).chan ∧
          (AnalogInput.mk 13 (100 / 1023) 0 68).chan ≤ 15) ∧
        (AnalogInput.mk 29 (100 / 1023) 0 68).read atmega2560 { latency := 1, result := 5 } 2
            reset
          = (AnalogInput.mk 13 (100 / 1023) 0 68).read atmega2560
            { latency := 1, result := 5 } 2 reset ∧
        ∃ v m1, (AnalogInput.mk 29 (100 / 1023) 0 68).read atmega2560
            { latency := 1, result := 5 } 2 reset = some (v, m1) ∧
          m1.ADMUX % 8 = (AnalogInput.mk 13 (100 / 1023) 0 68).chan % 8 ∧
          ∀ bit, atmega2560.MUX5 = some bit → m1.ADCSRB.testBit bit = true) :=
  ⟨⟨by decide, by decide, by decide, by decide, by intro b hb; cases hb; decide, by decide⟩,
    C15_out_of_range_index_aliases (AnalogInput.mk 29 (100 / 1023) 0 68)
      (AnalogInput.mk 13 (100 / 1023) 0 68) atmega2560 { latency := 1, result := 5 } 2 reset
      (by decide) (by decide) rfl (by decide) (by intro b hb; cases hb; decide) (by decide)⟩

/-- C16: for a sector count n in 2..255 and a raw code in 0..1023 the quotient
raw / (1023/(n-1)) is at most 255, and the `uint8_t` that `readSector()` returns is that
quotient, not a value reduced modulo 256. -/
theorem C16_sector_fits_uint8 (p : Platform) (c n : Nat) (m0 : Machine) (cv : Conversion)
    (fuel : Nat) (m : Machine) (h2 : 2 ≤ n) (h255 : n ≤ 255) (hr : cv.result ≤ 1023)
    (hADSC : p.ADSC < 8) (hfuel : cv.latency < fuel) :
    cv.result / (1023 / (n - 1)) ≤ 255 ∧
      ∃ a m1 m2, ctorSectors p c n m0 = some (a, m1) ∧
        a.readSector p cv fuel m = some (cv.result / (1023 / (n - 1)), m2) := by
  obtain ⟨m2, h, hq⟩ := readSector_quot
    { chan := c, mult := 100 / 1023, offs := 0, div := 1023 / (n - 1) } p cv fuel m
    hADSC hfuel (four_le_sectorDiv n h2 h255) hr
  refine ⟨hq, _, construct p c m0, m2, ?_, h⟩
  rw [ctorSectors, sectorDiv_of_two_le n h2 h255]

theorem C16_sector_fits_uint8_witness :
    (2 ≤ 255 ∧ 255 ≤ 255 ∧ 1023 ≤ 1023 ∧ atmega2560.ADSC < 8 ∧ 0 < 1) ∧
      ((1023 : Nat) / (1023 / (255 - 1)) ≤ 255 ∧
        ∃ a m1 m2, ctorSectors atmega2560 0 255 reset = some (a, m1) ∧
          a.readSector atmega2560 { latency := 0, result := 1023 } 1 reset
            = some (1023 / (1023 / (255 - 1)), m2)) :=
  ⟨by decide, C16_sector_fits_uint8 atmega2560 0 255 reset { latency := 0, result := 1023 } 1
    reset (by decide) (by decide) (by decide) (by decide) (by decide)⟩

/-- C17: for a sector count n in 2..255, `readSector()` on the constructed object is
non-decreasing in the raw code over 0..1023, returns 0 at raw code 0 and at least n-1 at
raw code 1023, and every sector index 0..n-1 is returned for some raw code in 0..1023. -/
theorem C17_sector_monotone_and_onto (p : Platform) (c n : Nat) (m0 : Machine)
    (h2 : 2 ≤ n) (h255 : n ≤ 255) (hADSC : p.ADSC < 8) :
    ∃ a m1, ctorSectors p c n m0 = some (a, m1) ∧
      (∀ (cv1 cv2 : Conversion) (fuel1 fuel2 : Nat) (ma mb : Machine),
        cv1.latency < fuel1 → cv2.latency < fuel2 → cv1.result ≤ cv2.result →
        cv2.result ≤ 1023 →
        ∃ s1 s2 n1 n2, a.readSector p cv1 fuel1 ma = some (s1, n1) ∧
          a.readSector p cv2 fuel2 mb = some (s2, n2) ∧ s1 ≤ s2 ∧
          (cv1.result = 0 → s1 = 0) ∧ (cv2.result = 1023 → n - 1 ≤ s2)) ∧
      (∀ s, s ≤ n - 1 → ∃ r, r ≤ 1023 ∧
        ∀ (lat fuel : Nat) (m : Machine), lat < fuel →
          ∃ m2, a.readSector p { latency := lat, result := r } fuel m = some (s, m2)) := by
  have h4 := four_le_sectorDiv n h2 h255
  have hmul : 1023 / (n - 1) * (n - 1) ≤ 1023 := Nat.div_mul_le_self 1023 (n - 1)
  refine ⟨{ chan := c, mult := 100 / 1023, offs := 0, div := 1023 / (n - 1) },
    construct p c m0, ?_, ?_, ?_⟩
  · rw [ctorSectors, sectorDiv_of_two_le n h2 h255]
  · intro cv1 cv2 fuel1 fuel2 ma mb hf1 hf2 hle hmax
    obtain ⟨n1, e1, -⟩ := readSector_quot
      { chan := c, mult := 100 / 1023, offs := 0, div := 1023 / (n - 1) } p cv1 fuel1 ma
      hADSC hf1 h4 (by omega)
    obtain ⟨n2, e2, -⟩ := readSector_quot
      { chan := c, mult := 100 / 1023, offs := 0, div := 1023 / (n - 1) } p cv2 fuel2 mb
      hADSC hf2 h4 hmax
    refine ⟨_, _, n1, n2, e1, e2, Nat.div_le_div_right hle, ?_, ?_⟩
    · intro h0
      show cv1.result / (1023 / (n - 1)) = 0
      rw [h0, Nat.zero_div]
    · intro h1023
      show n - 1 ≤ cv2.result / (1023 / (n - 1))
      rw [h1023, Nat.le_div_iff_mul_le (by omega), Nat.mul_comm]
      exact hmul
  · intro s hs
    refine ⟨s * (1023 / (n - 1)), ?_, ?_⟩
    · calc s * (1023 / (n - 1)) ≤ (n - 1) * (1023 / (n - 1)) := Nat.mul_le_mul_right _ hs
        _ = 1023 / (n - 1) * (n - 1) := Nat.mul_comm _ _
        _ ≤ 1023 := hmul
    · intro lat fuel m hfuel
      have hr : s * (1023 / (n - 1)) ≤ 1023 := by
        calc s * (1023 / (n - 1)) ≤ (n - 1) * (1023 / (n - 1)) := Nat.mul_le_mul_right _ hs
          _ = 1023 / (n - 1) * (n - 1) := Nat.mul_comm _ _
          _ ≤ 1023 := hmul
      obtain ⟨m2, e, -⟩ := readSector_quot
        { chan := c, mult := 100 / 1023, offs := 0, div := 1023 / (n - 1) } p
        { latency := lat, result := s * (1023 / (n - 1)) } fuel m hADSC hfuel h4 hr
      refine ⟨m2, ?_⟩
      rw [e]
      show some (s * (1023 / (n - 1)) / (1023 / (n - 1)), m2) = some (s, m2)
      rw [Nat.mul_div_cancel s (by omega : 0 < 1023 / (n - 1))]

theorem C17_sector_monotone_and_onto_witness :
    (2 ≤ 33 ∧ 33 ≤ 255 ∧ atmega2560.ADSC < 8) ∧
      ∃ a m1, ctorSectors atmega2560 9 33 reset = some (a, m1) ∧
        (∀ (cv1 cv2 : Conversion) (fuel1 fuel2 : Nat) (ma mb : Machine),
          cv1.latency < fuel1 → cv2.latency < fuel2 → cv1.result ≤ cv2.result →
          cv2.result ≤ 1023 →
          ∃ s1 s2 n1 n2, a.readSector atmega2560 cv1 fuel1 ma = some (s1, n1) ∧
            a.readSector atmega2560 cv2 fuel2 mb = some (s2, n2) ∧ s1 ≤ s2 ∧
            (cv1.result = 0 → s1 = 0) ∧ (cv2.result = 1023 → 33 - 1 ≤ s2)) ∧
        (∀ s, s ≤ 33 - 1 → ∃ r, r ≤ 1023 ∧
          ∀ (lat fuel : Nat) (m : Machine), lat < fuel →
            ∃ m2, a.readSector atmega2560 { latency := lat, result := r } fuel m
              = some (s, m2)) :=
  ⟨by decide, C17_sector_monotone_and_onto atmega2560 9 33 reset (by decide) (by decide)
    (by decide)⟩

end AnalogInput
